import Mathlib

/-!
Shallow embedding of the CRDT synchronization layer of iControl
(`iaxshared/crdt_sync.py`, `iaxshared/encrypted_client.py`,
`iaxshared/isync_client.py`).

Modelling conventions.  Python `float` wall-clock timestamps are modelled as
`Nat` (only their order and the Python truthiness of `0` matter); every call
of `time.time()` becomes an explicit `now : Nat` argument.  A Python dict
keyed by strings is a total function `String → Option _` (a missing key is
`none`); a vector clock is a total function `String → Nat` (a missing entry
is `0`, matching `dict.get(node, 0)`, so the Python per-key maximum loop and
the pointwise maximum coincide); a Python set of strings is a
`Finset String`.  Register values (Python `Any`) are a type parameter `α`.
-/

variable {α : Type}

/-- Last-Write-Wins register (`LWWRegister` in `crdt_sync.py`): an origin
node id, a value and a wall-clock timestamp. -/
structure LWWRegister (α : Type) where
  node_id : String
  value : α
  timestamp : Nat
deriving DecidableEq

/-- The Python constructor `LWWRegister.__init__`: `self.timestamp =
timestamp or time.time()` keeps the given timestamp unless it is falsy
(`None` or `0`), in which case the current wall clock `now` is used. -/
def LWWRegister.init (node_id : String) (value : α) (timestamp now : Nat) :
    LWWRegister α :=
  ⟨node_id, value, if timestamp = 0 then now else timestamp⟩

/-- `LWWRegister.update` as written in the source: the write is accepted when
`new_timestamp > self.timestamp` or (`new_timestamp == self.timestamp` and
`self.node_id > self.node_id`), the second disjunct comparing the register's
own node id with itself.  The accepted branch rebuilds the register through
the constructor with `self.node_id` as origin. -/
def LWWRegister.update (r : LWWRegister α) (value : α) (timestamp now : Nat) :
    LWWRegister α :=
  let new_timestamp := if timestamp = 0 then now else timestamp
  if new_timestamp > r.timestamp ∨
      (new_timestamp = r.timestamp ∧ r.node_id > r.node_id) then
    LWWRegister.init r.node_id value new_timestamp now
  else r

/-- `LWWRegister.merge`: the other register wins on a strictly greater
timestamp, or on an equal timestamp with a lexicographically greater origin
node id; otherwise keep `self`. -/
def LWWRegister.merge (r other : LWWRegister α) : LWWRegister α :=
  if other.timestamp > r.timestamp then other
  else if other.timestamp = r.timestamp ∧ other.node_id > r.node_id then other
  else r

/-- The dictionary form produced by `LWWRegister.to_dict`. -/
structure LWWRegisterDict (α : Type) where
  node_id : String
  value : α
  timestamp : Nat
deriving DecidableEq

/-- `LWWRegister.to_dict`. -/
def LWWRegister.to_dict (r : LWWRegister α) : LWWRegisterDict α :=
  ⟨r.node_id, r.value, r.timestamp⟩

/-- `LWWRegister.from_dict` goes through the constructor, hence through its
`timestamp or time.time()` defaulting. -/
def LWWRegister.from_dict (d : LWWRegisterDict α) (now : Nat) : LWWRegister α :=
  LWWRegister.init d.node_id d.value d.timestamp now

/-- Grow-only set of strings (`GSet` in `crdt_sync.py`). -/
structure GSet where
  elements : Finset String
deriving DecidableEq

/-- `GSet.add`. -/
def GSet.add (s : GSet) (element : String) : GSet :=
  ⟨insert element s.elements⟩

/-- `GSet.contains`. -/
def GSet.contains (s : GSet) (element : String) : Bool :=
  decide (element ∈ s.elements)

/-- `GSet.merge` is set union. -/
def GSet.merge (s other : GSet) : GSet :=
  ⟨s.elements ∪ other.elements⟩

/-- `GSet.to_dict` lists the elements (Python lists a set in unspecified
order; the model lists them in sorted order, one concrete enumeration). -/
def GSet.to_dict (s : GSet) : List String :=
  s.elements.sort (· ≤ ·)

/-- `GSet.from_dict` rebuilds the set from the listed elements. -/
def GSet.from_dict (l : List String) : GSet :=
  ⟨l.toFinset⟩

/-- `SyncState` of `crdt_sync.py`: a node id, a vector clock, the map of LWW
registers and the grow-only set of deleted keys. -/
structure SyncState (α : Type) where
  node_id : String
  vector_clock : String → Nat
  lww_registers : String → Option (LWWRegister α)
  deleted_keys : GSet

/-- `SyncState.__init__`: empty registers, empty tombstones, and the clock
`{node_id: 0}` (as a total function, identically `0`). -/
def SyncState.init (node_id : String) : SyncState α :=
  ⟨node_id, fun _ => 0, fun _ => none, ⟨∅⟩⟩

/-- `SyncState.increment_clock`: bump this node's own entry. -/
def SyncState.increment_clock (s : SyncState α) : SyncState α :=
  { s with vector_clock := fun node =>
      if node = s.node_id then s.vector_clock s.node_id + 1
      else s.vector_clock node }

/-- `SyncState.update_clock`: per-key maximum with the other clock (absent
entries behave as `0`), then one local increment. -/
def SyncState.update_clock (s : SyncState α) (other_clock : String → Nat) :
    SyncState α :=
  let maxed : String → Nat := fun node =>
    max (s.vector_clock node) (other_clock node)
  SyncState.increment_clock { s with vector_clock := maxed }

/-- `SyncState.set_value`: increment the clock, stamp the current wall clock,
then update the existing register for the key or create a fresh one carrying
the local node id. -/
def SyncState.set_value (s0 : SyncState α) (key : String) (value : α)
    (now : Nat) : SyncState α :=
  let s := s0.increment_clock
  let timestamp := now
  match s.lww_registers key with
  | some r =>
      { s with lww_registers := fun k =>
          if k = key then some (r.update value timestamp now)
          else s.lww_registers k }
  | none =>
      { s with lww_registers := fun k =>
          if k = key then some (LWWRegister.init s.node_id value timestamp now)
          else s.lww_registers k }

/-- `SyncState.delete_key`: increment the clock, add to the tombstone set and
drop any register stored at the key. -/
def SyncState.delete_key (s0 : SyncState α) (key : String) : SyncState α :=
  let s := s0.increment_clock
  { s with
      deleted_keys := s.deleted_keys.add key,
      lww_registers := fun k => if k = key then none else s.lww_registers k }

/-- `SyncState.get_value`: `None` for a tombstoned key, otherwise the stored
register's value (or `None` when absent). -/
def SyncState.get_value (s : SyncState α) (key : String) : Option α :=
  if s.deleted_keys.contains key then none
  else (s.lww_registers key).map LWWRegister.value

/-- `SyncState.merge`: update the vector clock from the remote clock, merge
the register maps (keys only on one side are adopted, common keys go through
`LWWRegister.merge`), union the tombstone sets, then remove every tombstoned
key from the register map. -/
def SyncState.merge (s other : SyncState α) : SyncState α :=
  let clocked := s.update_clock other.vector_clock
  let merged : String → Option (LWWRegister α) := fun k =>
    match s.lww_registers k, other.lww_registers k with
    | some r, some o => some (r.merge o)
    | none, some o => some o
    | r, none => r
  let deleted := s.deleted_keys.merge other.deleted_keys
  { clocked with
      lww_registers := fun k => if deleted.contains k then none else merged k,
      deleted_keys := deleted }

/-- The dictionary form produced by `SyncState.to_dict`. -/
structure SyncStateDict (α : Type) where
  node_id : String
  vector_clock : String → Nat
  lww_registers : String → Option (LWWRegisterDict α)
  deleted_keys : List String

/-- `SyncState.to_dict`. -/
def SyncState.to_dict (s : SyncState α) : SyncStateDict α :=
  ⟨s.node_id, s.vector_clock,
    fun k => (s.lww_registers k).map LWWRegister.to_dict,
    s.deleted_keys.to_dict⟩

/-- `SyncState.from_dict`: rebuild the state, each register going through
`LWWRegister.from_dict` (hence through the constructor's timestamp
defaulting, with wall clock `now`). -/
def SyncState.from_dict (d : SyncStateDict α) (now : Nat) : SyncState α :=
  ⟨d.node_id, d.vector_clock,
    fun k => (d.lww_registers k).map (fun rd => LWWRegister.from_dict rd now),
    GSet.from_dict d.deleted_keys⟩

/-- One entry of the discovery peer list.  The Python entries are JSON
objects read with `p.get('verified', False)`, `p.get('name', '')` and
`p.get('url', '')`; absent fields are modelled by the same defaults. -/
structure Peer where
  verified : Bool
  name : String
  url : String
deriving DecidableEq

/-- The Python sort key `(not p.get('verified', False), p.get('name', ''))`
as a relation: verified entries first (`false < true` on the negated flag),
ties broken by name ascending. -/
def peerLe (p q : Peer) : Prop :=
  (!p.verified) < (!q.verified) ∨ ((!p.verified) = (!q.verified) ∧ p.name ≤ q.name)

instance : DecidableRel peerLe := fun p q => by
  unfold peerLe; infer_instance

instance : IsTotal Peer peerLe := by
  constructor
  intro p q
  by_cases hv : (!p.verified) = (!q.verified)
  · rcases le_total p.name q.name with h | h
    · exact Or.inl (Or.inr ⟨hv, h⟩)
    · exact Or.inr (Or.inr ⟨hv.symm, h⟩)
  · rcases lt_or_gt_of_ne hv with h | h
    · exact Or.inl (Or.inl h)
    · exact Or.inr (Or.inl h)

instance : IsTrans Peer peerLe := by
  constructor
  intro a b c hab hbc
  rcases hab with h1 | ⟨e1, n1⟩
  · rcases hbc with h2 | ⟨e2, n2⟩
    · exact Or.inl (h1.trans h2)
    · exact Or.inl (e2 ▸ h1)
  · rcases hbc with h2 | ⟨e2, n2⟩
    · exact Or.inl (e1 ▸ h2)
    · exact Or.inr ⟨e1.trans e2, n1.trans n2⟩

/-- `select_peers` of `isync_client.py` (identical code in
`encrypted_client.py`): early-return `[]` on an empty list, otherwise sort by
the key `(not verified, name)` with a stable sort (Python's `sorted` is
stable; the model uses stable insertion sort), take the first `max_peers`
entries and keep their non-empty URLs. -/
def select_peers (peer_list : List Peer) (max_peers : Nat) : List String :=
  if peer_list.isEmpty then []
  else
    let sorted_peers := peer_list.insertionSort peerLe
    let selected := sorted_peers.take max_peers
    selected.filterMap (fun p => if p.url = "" then none else some p.url)

/-- An inbound sync envelope as read by
`EncryptedClient.handle_incoming_sync`: the `_encrypted` flag, the source
metadata and the (base64) encrypted payload string (`""` when absent). -/
structure SyncPacket where
  encrypted : Bool
  source_node : String
  source_type : String
  encrypted_data : String

/-- The part of `EncryptedClient` state that the sync handler touches: the
local node id, the CRDT state and whether a cipher is configured. -/
structure EncryptedClient (α : Type) where
  node_id : String
  sync_state : SyncState α
  hasCipher : Bool

/-- `EncryptedClient.handle_incoming_sync`, with decryption abstracted as an
oracle from payload strings to decoded state dictionaries (`none` models a
decryption failure).  Guards in source order: non-encrypted packets are
ignored; packets with `source_type == "iControl"` and `source_node` equal to
the local id are ignored; then missing cipher, empty payload and failed
decryption all return without merging; otherwise the decoded state is merged.
The side write-back to the database is outside the modelled state. -/
def EncryptedClient.handle_incoming_sync (c : EncryptedClient α)
    (data : SyncPacket) (decrypt : String → Option (SyncStateDict α))
    (now : Nat) : EncryptedClient α :=
  if !data.encrypted then c
  else if data.source_type = "iControl" ∧ data.source_node = c.node_id then c
  else if !c.hasCipher then c
  else if data.encrypted_data = "" then c
  else
    match decrypt data.encrypted_data with
    | none => c
    | some d =>
        { c with sync_state := c.sync_state.merge (SyncState.from_dict d now) }

/-- A peer-level sync envelope as read by `PeerSync.apply_sync_data`: source
metadata and an optional plain `data` payload (`none` when the `'data'` key
is absent). -/
structure PeerPacket (α : Type) where
  source_node : String
  source_type : String
  data : Option (SyncStateDict α)

/-- `PeerSync` of `crdt_sync.py`: a node id and its CRDT state. -/
structure PeerSync (α : Type) where
  node_id : String
  sync_state : SyncState α

/-- `PeerSync.apply_sync_data`: when the packet carries a `data` payload it
is decoded and merged (returning `true`), with no check of `source_node`;
otherwise nothing happens and `false` is returned. -/
def PeerSync.apply_sync_data (ps : PeerSync α) (sync_packet : PeerPacket α)
    (now : Nat) : PeerSync α × Bool :=
  match sync_packet.data with
  | some d =>
      ({ ps with sync_state := ps.sync_state.merge (SyncState.from_dict d now) },
        true)
  | none => (ps, false)

/-- States reachable from a fresh `SyncState` by the public operations, every
wall-clock input being positive (as `time.time()` is). -/
inductive Reachable : SyncState α → Prop
  | init (node_id : String) : Reachable (SyncState.init node_id)
  | set (s : SyncState α) (key : String) (value : α) (now : Nat)
      (hnow : 0 < now) (hs : Reachable s) : Reachable (s.set_value key value now)
  | del (s : SyncState α) (key : String) (hs : Reachable s) :
      Reachable (s.delete_key key)
  | mrg (s other : SyncState α) (hs : Reachable s) (ho : Reachable other) :
      Reachable (s.merge other)

/-! Projection helpers. -/

lemma increment_clock_node_id (s : SyncState α) :
    s.increment_clock.node_id = s.node_id := rfl

lemma increment_clock_lww (s : SyncState α) :
    s.increment_clock.lww_registers = s.lww_registers := rfl

lemma increment_clock_deleted (s : SyncState α) :
    s.increment_clock.deleted_keys = s.deleted_keys := rfl

lemma merge_node_id (s other : SyncState α) :
    (s.merge other).node_id = s.node_id := rfl

lemma merge_deleted (s other : SyncState α) :
    (s.merge other).deleted_keys = s.deleted_keys.merge other.deleted_keys := rfl

lemma merge_lww (s other : SyncState α) (k : String) :
    (s.merge other).lww_registers k =
      if (s.deleted_keys.merge other.deleted_keys).contains k then none
      else
        match s.lww_registers k, other.lww_registers k with
        | some r, some o => some (r.merge o)
        | none, some o => some o
        | r, none => r := rfl

lemma merge_vector_clock (s other : SyncState α) (m : String) :
    (s.merge other).vector_clock m =
      if m = s.node_id
      then max (s.vector_clock s.node_id) (other.vector_clock s.node_id) + 1
      else max (s.vector_clock m) (other.vector_clock m) := rfl

lemma gset_merge_elements (a b : GSet) :
    (a.merge b).elements = a.elements ∪ b.elements := rfl

lemma gset_contains_iff (a : GSet) (e : String) :
    a.contains e = true ↔ e ∈ a.elements := by
  simp [GSet.contains]

/-- Merging two LWW registers returns one of the two. -/
lemma lww_merge_cases (r o : LWWRegister α) : r.merge o = r ∨ r.merge o = o := by
  unfold LWWRegister.merge
  split
  · exact Or.inr rfl
  · split
    · exact Or.inr rfl
    · exact Or.inl rfl

/-- Merging a register with itself keeps it. -/
lemma lww_merge_self (r : LWWRegister α) : r.merge r = r := by
  unfold LWWRegister.merge
  simp [lt_irrefl]

/-- Re-merging the right argument is absorbed. -/
lemma lww_merge_right_absorb (r o : LWWRegister α) :
    (r.merge o).merge o = r.merge o := by
  unfold LWWRegister.merge
  split
  · simp [lt_irrefl]
  · split
    · simp [lt_irrefl]
    · rename_i h1 h2
      simp only [if_neg h1, if_neg h2]

/-- `LWWRegister.merge` is symmetric whenever the two registers are not an
equal-timestamp, equal-node-id pair with different contents. -/
lemma lww_merge_comm_of (r o : LWWRegister α)
    (h : r.timestamp = o.timestamp → r.node_id = o.node_id → r = o) :
    r.merge o = o.merge r := by
  unfold LWWRegister.merge
  rcases Nat.lt_trichotomy r.timestamp o.timestamp with ht | ht | ht
  · rw [if_pos ht, if_neg (by omega)]
    rw [if_neg (by rintro ⟨h1, -⟩; omega)]
  · rcases lt_trichotomy r.node_id o.node_id with hn | hn | hn
    · rw [if_neg (by omega), if_pos ⟨ht.symm, hn⟩, if_neg (by omega),
        if_neg (by rintro ⟨-, h2⟩; exact absurd h2 (not_lt_of_gt hn))]
    · have := h ht hn
      subst this
      rfl
    · rw [if_neg (by omega), if_neg (by rintro ⟨-, h2⟩; exact absurd h2 (not_lt_of_gt hn)),
        if_neg (by omega), if_pos ⟨ht, hn⟩]
  · rw [if_neg (by omega), if_neg (by rintro ⟨h1, -⟩; omega), if_pos ht]

/-- C1.  The claim states the tie-break acceptance rule of
`LWWRegister.update` and that some equal-timestamp write from a
lexicographically greater writer is accepted.  The code compares
`self.node_id` with itself (and takes no writer id at all), so an
equal-timestamp write is never accepted: `update` returns the register
unchanged whenever the (non-falsy) timestamp equals the stored one. -/
theorem update_tie_write_never_accepted (r : LWWRegister α) (value : α)
    (timestamp now : Nat) (heq : timestamp = r.timestamp) (hne : timestamp ≠ 0) :
    r.update value timestamp now = r := by
  unfold LWWRegister.update
  simp only [if_neg hne]
  rw [if_neg]
  rintro (h | ⟨-, h⟩)
  · omega
  · exact absurd h (lt_irrefl _)

/-- Witness for C1: the register `("a", 0, 1)` receives the value `1` at the
same timestamp `1` (a write the claim expects to be accepted when issued by a
node above `"a"`); the code leaves the register unchanged. -/
theorem update_tie_write_never_accepted_witness :
    ((1 : Nat) = (⟨"a", (0 : Nat), 1⟩ : LWWRegister Nat).timestamp ∧ (1 : Nat) ≠ 0) ∧
      LWWRegister.update (⟨"a", (0 : Nat), 1⟩ : LWWRegister Nat) 1 1 1 =
        ⟨"a", (0 : Nat), 1⟩ :=
  ⟨⟨rfl, by decide⟩,
    update_tie_write_never_accepted (⟨"a", (0 : Nat), 1⟩ : LWWRegister Nat) 1 1 1 rfl
      (by decide)⟩

/-- C5.  An accepted overwrite of an existing key keeps the previous
register's origin node id (because `LWWRegister.update` rebuilds the register
with `self.node_id`), not the local node id the spec prescribes. -/
theorem set_value_keeps_foreign_origin (s : SyncState α) (key : String)
    (r : LWWRegister α) (value : α) (now : Nat)
    (hr : s.lww_registers key = some r) (ht : r.timestamp < now) :
    (s.set_value key value now).lww_registers key =
      some ⟨r.node_id, value, now⟩ := by
  unfold SyncState.set_value
  dsimp only [SyncState.increment_clock]
  rw [hr]
  simp only [if_pos rfl]
  unfold LWWRegister.update LWWRegister.init
  simp only [ite_self]
  rw [if_pos (Or.inl ht)]
  simp [ite_self]

/-- Witness for C5: node `"b"` holds at key `"k"` a register that originated
at node `"a"`; after `set_value` at a later wall clock the stored register
still carries origin `"a"`, although the writing state's node id is `"b"`. -/
theorem set_value_keeps_foreign_origin_witness :
    (((SyncState.init "b").merge
        ((SyncState.init "a").set_value "k" (0 : Nat) 1)).lww_registers "k" =
          some ⟨"a", (0 : Nat), 1⟩ ∧ (1 : Nat) < 9) ∧
      (((SyncState.init "b").merge
          ((SyncState.init "a").set_value "k" (0 : Nat) 1)).set_value "k" 5 9).lww_registers
            "k" = some ⟨"a", (5 : Nat), 9⟩ ∧
      ((SyncState.init "b").merge
          ((SyncState.init "a").set_value "k" (0 : Nat) 1)).node_id = "b" :=
  ⟨⟨by decide, by decide⟩,
    set_value_keeps_foreign_origin
      ((SyncState.init "b").merge ((SyncState.init "a").set_value "k" (0 : Nat) 1))
      "k" ⟨"a", (0 : Nat), 1⟩ 5 9 (by decide) (by decide),
    rfl⟩

lemma increment_clock_vc (s : SyncState α) (m : String) :
    s.increment_clock.vector_clock m =
      if m = s.node_id then s.vector_clock m + 1 else s.vector_clock m := by
  unfold SyncState.increment_clock
  by_cases h : m = s.node_id
  · subst h; simp
  · simp [h]

lemma set_value_vc (s : SyncState α) (key : String) (value : α) (now : Nat) :
    (s.set_value key value now).vector_clock = s.increment_clock.vector_clock := by
  unfold SyncState.set_value
  dsimp only
  cases s.increment_clock.lww_registers key <;> rfl

lemma set_value_deleted (s : SyncState α) (key : String) (value : α) (now : Nat) :
    (s.set_value key value now).deleted_keys = s.deleted_keys := by
  unfold SyncState.set_value
  dsimp only
  cases s.increment_clock.lww_registers key <;> rfl

lemma delete_key_vc (s : SyncState α) (key : String) :
    (s.delete_key key).vector_clock = s.increment_clock.vector_clock := rfl

lemma delete_key_deleted (s : SyncState α) (key : String) :
    (s.delete_key key).deleted_keys = s.deleted_keys.add key := rfl

/-- C8.  After a merge every clock entry of another node is the pointwise
maximum of the previous local entry and the remote entry (absent entries
reading as `0`), the local node's entry is that maximum plus exactly one, and
the purely local operations bump only the local entry. -/
theorem merge_clock_pointwise_max_then_increment (s other : SyncState α)
    (m : String) :
    ((s.merge other).vector_clock m =
      if m = s.node_id
      then max (s.vector_clock m) (other.vector_clock m) + 1
      else max (s.vector_clock m) (other.vector_clock m)) ∧
    (∀ (key : String) (value : α) (now : Nat),
      (s.set_value key value now).vector_clock m =
        if m = s.node_id then s.vector_clock m + 1 else s.vector_clock m) ∧
    (∀ key : String,
      (s.delete_key key).vector_clock m =
        if m = s.node_id then s.vector_clock m + 1 else s.vector_clock m) := by
  refine ⟨?_, ?_, ?_⟩
  · rw [merge_vector_clock]
    by_cases h : m = s.node_id
    · subst h; simp
    · simp [h]
  · intro key value now
    rw [set_value_vc, increment_clock_vc]
  · intro key
    rw [delete_key_vc, increment_clock_vc]

lemma merge_pruned (s other : SyncState α) (k : String)
    (hk : k ∈ (s.merge other).deleted_keys.elements) :
    (s.merge other).lww_registers k = none := by
  rw [merge_lww,
    if_pos ((gset_contains_iff (s.deleted_keys.merge other.deleted_keys) k).mpr hk)]

/-- C3.  The tombstone set of a merge result is the union of the two
tombstone sets, and every key in it is absent from the merged register map:
deletion wins over any register value. -/
theorem merge_prunes_deleted (s other : SyncState α) (k : String) :
    ((s.merge other).deleted_keys.elements =
      s.deleted_keys.elements ∪ other.deleted_keys.elements) ∧
    (k ∈ (s.merge other).deleted_keys.elements →
      (s.merge other).lww_registers k = none) :=
  ⟨rfl, fun hk => merge_pruned s other k hk⟩

/-- Witness for C3 at a concrete merge with a tombstoned key. -/
theorem merge_prunes_deleted_witness :
    "k" ∈ (((SyncState.init "n" (α := Nat)).delete_key "k").merge
        (SyncState.init "m")).deleted_keys.elements ∧
      (((SyncState.init "n" (α := Nat)).delete_key "k").merge
        (SyncState.init "m")).lww_registers "k" = none :=
  ⟨by decide,
    (merge_prunes_deleted ((SyncState.init "n" (α := Nat)).delete_key "k")
      (SyncState.init "m") "k").2 (by decide)⟩

/-- C10.  A tombstoned key reads as `None`, and no operation ever removes it
from the tombstone set: `set_value` leaves the set untouched, `delete_key`
only inserts, and `merge` takes a union. -/
theorem tombstones_permanent (s : SyncState α) (k : String)
    (h : k ∈ s.deleted_keys.elements) :
    s.get_value k = none ∧
    (∀ (key : String) (value : α) (now : Nat),
      k ∈ (s.set_value key value now).deleted_keys.elements) ∧
    (∀ key : String, k ∈ (s.delete_key key).deleted_keys.elements) ∧
    (∀ other : SyncState α, k ∈ (s.merge other).deleted_keys.elements) := by
  refine ⟨?_, ?_, ?_, ?_⟩
  · unfold SyncState.get_value
    rw [if_pos ((gset_contains_iff _ _).mpr h)]
  · intro key value now
    rw [set_value_deleted]
    exact h
  · intro key
    rw [delete_key_deleted]
    exact Finset.mem_insert_of_mem h
  · intro other
    rw [merge_deleted, gset_merge_elements]
    exact Finset.mem_union_left _ h

/-- Witness for C10 at a concrete state that tombstoned `"k"` and then wrote
it again. -/
theorem tombstones_permanent_witness :
    "k" ∈ ((SyncState.init "n" (α := Nat)).delete_key "k").deleted_keys.elements ∧
      ((SyncState.init "n" (α := Nat)).delete_key "k").get_value "k" = none ∧
      "k" ∈ (((SyncState.init "n" (α := Nat)).delete_key "k").set_value "k" 1
          5).deleted_keys.elements :=
  ⟨by decide,
    (tombstones_permanent ((SyncState.init "n" (α := Nat)).delete_key "k") "k"
      (by decide)).1,
    (tombstones_permanent ((SyncState.init "n" (α := Nat)).delete_key "k") "k"
      (by decide)).2.1 "k" 1 5⟩

/-- A third node's register adopted by node `"a"` and overwritten there: the
stored register keeps origin `"n"` (the `LWWRegister.update` origin slip). -/
def stateA : SyncState Nat :=
  ((SyncState.init "a").merge ((SyncState.init "n").set_value "k" 0 1)).set_value
    "k" 1 5

/-- The same adopted register overwritten at node `"b"` at the same wall
clock, leaving origin `"n"` and timestamp `5` but value `2`. -/
def stateB : SyncState Nat :=
  ((SyncState.init "b").merge ((SyncState.init "n").set_value "k" 0 1)).set_value
    "k" 2 5

lemma lww_merge_tie_same_id (r o : LWWRegister α)
    (hts : o.timestamp = r.timestamp) (hid : o.node_id = r.node_id) :
    r.merge o = r := by
  unfold LWWRegister.merge
  rw [if_neg (by omega), if_neg ?_]
  rintro ⟨-, hgt⟩
  rw [hid] at hgt
  exact lt_irrefl _ hgt

lemma merge_lww_both (s other : SyncState α) (k : String)
    (r o : LWWRegister α)
    (hc : (s.deleted_keys.merge other.deleted_keys).contains k = false)
    (hs : s.lww_registers k = some r) (ho : other.lww_registers k = some o) :
    (s.merge other).lww_registers k = some (r.merge o) := by
  rw [merge_lww, if_neg (by simp [hc]), hs, ho]

/-- Counterexample to C2 as stated: `stateA` and `stateB` are each built only
by `set_value` and `merge` operations, yet merging them in the two orders
yields different registers at `"k"` (`("n", 1, 5)` versus `("n", 2, 5)`):
equal timestamps with equal origin ids make each side keep its own value. -/
theorem merge_not_commutative_on_registers :
    (stateA.merge stateB).lww_registers "k" ≠
      (stateB.merge stateA).lww_registers "k" := by
  have hA : stateA.lww_registers "k" = some ⟨"n", 1, 5⟩ := by decide
  have hB : stateB.lww_registers "k" = some ⟨"n", 2, 5⟩ := by decide
  have hcA : (stateA.deleted_keys.merge stateB.deleted_keys).contains "k" =
      false := by decide
  have hcB : (stateB.deleted_keys.merge stateA.deleted_keys).contains "k" =
      false := by decide
  rw [merge_lww_both stateA stateB "k" ⟨"n", 1, 5⟩ ⟨"n", 2, 5⟩ hcA hA hB,
    merge_lww_both stateB stateA "k" ⟨"n", 2, 5⟩ ⟨"n", 1, 5⟩ hcB hB hA,
    lww_merge_tie_same_id (⟨"n", 1, 5⟩ : LWWRegister Nat) ⟨"n", 2, 5⟩ rfl rfl,
    lww_merge_tie_same_id (⟨"n", 2, 5⟩ : LWWRegister Nat) ⟨"n", 1, 5⟩ rfl rfl]
  simp

/-- C2 amended.  Merging in either order always yields the same tombstone
set, and yields the same register map provided no key carries, on the two
sides, registers with equal timestamp and equal origin node id but different
contents (the situation of the counterexample). -/
theorem merge_commutative_of_compatible (A B : SyncState α) :
    (A.merge B).deleted_keys = (B.merge A).deleted_keys ∧
    ((∀ (k : String) (ra rb : LWWRegister α),
        A.lww_registers k = some ra → B.lww_registers k = some rb →
        ra.timestamp = rb.timestamp → ra.node_id = rb.node_id → ra = rb) →
      ∀ k, (A.merge B).lww_registers k = (B.merge A).lww_registers k) := by
  have hdel : A.deleted_keys.merge B.deleted_keys =
      B.deleted_keys.merge A.deleted_keys := by
    cases A.deleted_keys
    cases B.deleted_keys
    simp [GSet.merge, Finset.union_comm]
  constructor
  · rw [merge_deleted, merge_deleted, hdel]
  · intro hcompat k
    rw [merge_lww, merge_lww, hdel]
    by_cases hc : (B.deleted_keys.merge A.deleted_keys).contains k = true
    · rw [if_pos hc, if_pos hc]
    · rw [if_neg hc, if_neg hc]
      cases ha : A.lww_registers k with
      | none => cases hb : B.lww_registers k <;> rfl
      | some ra =>
        cases hb : B.lww_registers k with
        | none => rfl
        | some rb =>
          have hcm := lww_merge_comm_of ra rb
            (fun h1 h2 => hcompat k ra rb ha hb h1 h2)
          simp [hcm]

/-- Witness for amended C2 on two concrete compatible states. -/
theorem merge_commutative_of_compatible_witness :
    ((SyncState.init "a" (α := Nat)).merge (SyncState.init "b")).deleted_keys =
      ((SyncState.init "b" (α := Nat)).merge (SyncState.init "a")).deleted_keys ∧
    ((SyncState.init "a" (α := Nat)).merge (SyncState.init "b")).lww_registers
        "k" =
      ((SyncState.init "b" (α := Nat)).merge (SyncState.init "a")).lww_registers
        "k" :=
  ⟨(merge_commutative_of_compatible (SyncState.init "a") (SyncState.init "b")).1,
    (merge_commutative_of_compatible (SyncState.init "a") (SyncState.init "b")).2
      (fun k ra rb ha => by simp [SyncState.init] at ha) "k"⟩

/-- A state that tombstoned `"k"` and then wrote it again: `set_value` does
not consult the tombstone set, so `"k"` sits in both the register map and the
deleted set. -/
def resurrected : SyncState Nat :=
  ((SyncState.init "n").delete_key "k").set_value "k" 1 5

/-- Counterexample to C6 as stated: merging `resurrected` with a copy of
itself removes the register at `"k"` (the prune step sees the tombstone), so
the register map is not left exactly as it was. -/
theorem merge_self_not_idempotent :
    (resurrected.merge resurrected).lww_registers "k" ≠
      resurrected.lww_registers "k" := by
  decide

/-- C6 amended.  Merging a copy of `A` into `A` leaves the register map and
tombstone set unchanged provided no register key of `A` is tombstoned (the
invariant `set_value` can break by resurrecting a deleted key); and
re-merging the same remote state `B` into `A.merge B` is unconditionally a
no-op on registers and tombstones. -/
theorem merge_idempotent_amended (A B : SyncState α) :
    ((∀ k, k ∈ A.deleted_keys.elements → A.lww_registers k = none) →
      (∀ k, (A.merge A).lww_registers k = A.lww_registers k) ∧
        (A.merge A).deleted_keys = A.deleted_keys) ∧
    ((∀ k, ((A.merge B).merge B).lww_registers k = (A.merge B).lww_registers k) ∧
      ((A.merge B).merge B).deleted_keys = (A.merge B).deleted_keys) := by
  have hdAA : A.deleted_keys.merge A.deleted_keys = A.deleted_keys := by
    cases A.deleted_keys
    simp [GSet.merge]
  have hdABB : (A.merge B).deleted_keys.merge B.deleted_keys =
      (A.merge B).deleted_keys := by
    rw [merge_deleted]
    cases A.deleted_keys
    cases B.deleted_keys
    simp [GSet.merge, Finset.union_assoc]
  constructor
  · intro hdisj
    constructor
    · intro k
      rw [merge_lww, hdAA]
      by_cases hc : A.deleted_keys.contains k = true
      · rw [if_pos hc]
        exact (hdisj k ((gset_contains_iff _ _).mp hc)).symm
      · rw [if_neg hc]
        cases ha : A.lww_registers k with
        | none => rfl
        | some r => simp [lww_merge_self]
    · rw [merge_deleted]
      exact hdAA
  · constructor
    · intro k
      rw [merge_lww (A.merge B) B, hdABB]
      by_cases hc : (A.merge B).deleted_keys.contains k = true
      · rw [if_pos hc]
        exact (merge_pruned A B k ((gset_contains_iff _ _).mp hc)).symm
      · rw [if_neg hc]
        have hc2 : ¬(A.deleted_keys.merge B.deleted_keys).contains k = true := hc
        rw [merge_lww A B, if_neg hc2]
        cases ha : A.lww_registers k <;> cases hb : B.lww_registers k <;>
          simp [lww_merge_self, lww_merge_right_absorb]
    · rw [merge_deleted (A.merge B) B]
      exact hdABB

/-- Witness for amended C6 at a concrete state with no tombstones. -/
theorem merge_idempotent_amended_witness :
    (((SyncState.init "n" (α := Nat)).merge
        (SyncState.init "n")).lww_registers "k" =
      (SyncState.init "n" (α := Nat)).lww_registers "k") ∧
    ((((SyncState.init "n" (α := Nat)).merge (SyncState.init "m")).merge
        (SyncState.init "m")).deleted_keys =
      ((SyncState.init "n" (α := Nat)).merge (SyncState.init "m")).deleted_keys) :=
  ⟨(((merge_idempotent_amended (SyncState.init "n") (SyncState.init "m")).1
      (fun _ _ => rfl)).1) "k",
    (merge_idempotent_amended (SyncState.init "n") (SyncState.init "m")).2.2⟩

/-- A peer node with an empty CRDT state. -/
def psNode : PeerSync Nat :=
  ⟨"p", SyncState.init "p"⟩

/-- A peer-level packet whose `source_node` equals the local node id `"p"`
and whose payload is the node's own serialized state. -/
def pktOwnEcho : PeerPacket Nat :=
  ⟨"p", "iSync", some ((SyncState.init "p").to_dict)⟩

/-- An encrypted-client state with a cipher configured. -/
def ecNode : EncryptedClient Nat :=
  ⟨"p", SyncState.init "p", true⟩

/-- An encrypted packet whose `source_node` equals the local node id but
whose `source_type` is `"iSync"`, not `"iControl"`. -/
def pktPeerTyped : SyncPacket :=
  ⟨true, "p", "iSync", "payload"⟩

/-- A decryption oracle that decodes the payload to the node's own state. -/
def decryptOwn : String → Option (SyncStateDict Nat) :=
  fun _ => some ((SyncState.init "p").to_dict)

/-- Counterexample to C4 as stated: `PeerSync.apply_sync_data` performs no
self-echo check at all, and the encrypted client's check also requires
`source_type == "iControl"`; in both cases a packet whose `source_node`
equals the local node id is merged and the local vector clock changes. -/
theorem self_echo_counterexample :
    (pktOwnEcho.source_node = psNode.node_id ∧
      (psNode.apply_sync_data pktOwnEcho 1).1.sync_state.vector_clock "p" ≠
        psNode.sync_state.vector_clock "p") ∧
    (pktPeerTyped.source_node = ecNode.node_id ∧
      (ecNode.handle_incoming_sync pktPeerTyped decryptOwn 1).sync_state.vector_clock
          "p" ≠
        ecNode.sync_state.vector_clock "p") := by
  refine ⟨⟨rfl, ?_⟩, ⟨rfl, ?_⟩⟩ <;> decide

/-- C4 amended.  The encrypted client's handler does suppress self echoes of
its own kind: any packet with `source_type == "iControl"` and `source_node`
equal to the local node id leaves the client (CRDT state included) unchanged,
before any decryption is attempted.  `PeerSync.apply_sync_data` has no such
check. -/
theorem encrypted_self_echo_suppressed (c : EncryptedClient α)
    (data : SyncPacket) (decrypt : String → Option (SyncStateDict α))
    (now : Nat) (htype : data.source_type = "iControl")
    (hnode : data.source_node = c.node_id) :
    c.handle_incoming_sync data decrypt now = c := by
  unfold EncryptedClient.handle_incoming_sync
  cases h : data.encrypted
  · simp
  · simp [htype, hnode]

/-- Witness for amended C4: an `"iControl"`-typed echo of the local node is
ignored even though it would decrypt and merge otherwise. -/
theorem encrypted_self_echo_suppressed_witness :
    ((⟨true, "p", "iControl", "payload"⟩ : SyncPacket).source_type = "iControl" ∧
      (⟨true, "p", "iControl", "payload"⟩ : SyncPacket).source_node =
        ecNode.node_id) ∧
    ecNode.handle_incoming_sync ⟨true, "p", "iControl", "payload"⟩ decryptOwn 1 =
      ecNode :=
  ⟨⟨rfl, rfl⟩,
    encrypted_self_echo_suppressed ecNode ⟨true, "p", "iControl", "payload"⟩
      decryptOwn 1 rfl rfl⟩

/-- C9.  `select_peers` is a pure function (hence deterministic and identical
across repeated calls on identical input); its output is obtained from a
reordering of the input that is sorted with verified peers first and names
ascending, by taking the first `max_peers` entries and keeping their
(non-empty) URLs; it never returns more than `max_peers` URLs. -/
theorem select_peers_sorted_take_urls (peer_list : List Peer)
    (max_peers : Nat) :
    ∃ sorted_peers : List Peer,
      List.Perm sorted_peers peer_list ∧
      List.Sorted peerLe sorted_peers ∧
      select_peers peer_list max_peers =
        (sorted_peers.take max_peers).filterMap
          (fun p => if p.url = "" then none else some p.url) ∧
      (select_peers peer_list max_peers).length ≤ max_peers := by
  refine ⟨peer_list.insertionSort peerLe,
    List.perm_insertionSort peerLe peer_list,
    List.sorted_insertionSort peerLe peer_list, ?_, ?_⟩
  · unfold select_peers
    by_cases h : peer_list.isEmpty
    · rw [if_pos h]
      rw [List.isEmpty_iff.mp h]
      simp
    · rw [if_neg h]
  · unfold select_peers
    by_cases h : peer_list.isEmpty
    · rw [if_pos h]
      simp
    · rw [if_neg h]
      exact le_trans (List.length_filterMap_le _ _) (List.length_take_le _ _)

lemma set_value_lww (s : SyncState α) (key : String) (value : α) (now : Nat)
    (k : String) :
    (s.set_value key value now).lww_registers k =
      if k = key then
        (match s.lww_registers key with
          | some r => some (r.update value now now)
          | none => some (LWWRegister.init s.node_id value now now))
      else s.lww_registers k := by
  unfold SyncState.set_value
  dsimp only [SyncState.increment_clock]
  cases s.lww_registers key <;> rfl

lemma delete_key_lww (s : SyncState α) (key k : String) :
    (s.delete_key key).lww_registers k =
      if k = key then none else s.lww_registers k := rfl

/-- Every register of a reachable state carries a positive (hence non-falsy)
timestamp, because every write stamps a positive wall clock. -/
lemma reachable_timestamp_pos {s : SyncState α} (hs : Reachable s) :
    ∀ k r, s.lww_registers k = some r → 0 < r.timestamp := by
  induction hs with
  | init n =>
      intro k r h
      exact absurd h (by simp [SyncState.init])
  | set s key value now hnow hs ih =>
      intro k r h
      rw [set_value_lww] at h
      by_cases hk : k = key
      · rw [if_pos hk] at h
        cases hx : s.lww_registers key with
        | none =>
            rw [hx] at h
            injection h with h2
            subst h2
            simpa [LWWRegister.init] using hnow
        | some r0 =>
            rw [hx] at h
            injection h with h2
            subst h2
            unfold LWWRegister.update LWWRegister.init
            dsimp only
            simp only [gt_iff_lt, ite_self, lt_self_iff_false, and_false,
              or_false]
            by_cases hlt : r0.timestamp < now
            · rw [if_pos hlt]
              simpa using hnow
            · rw [if_neg hlt]
              exact ih key r0 hx
      · rw [if_neg hk] at h
        exact ih k r h
  | del s key hs ih =>
      intro k r h
      rw [delete_key_lww] at h
      by_cases hk : k = key
      · rw [if_pos hk] at h
        cases h
      · rw [if_neg hk] at h
        exact ih k r h
  | mrg s other hs ho ihs iho =>
      intro k r h
      rw [merge_lww] at h
      by_cases hc : (s.deleted_keys.merge other.deleted_keys).contains k = true
      · rw [if_pos hc] at h
        cases h
      · rw [if_neg hc] at h
        cases ha : s.lww_registers k with
        | none =>
            cases hb : other.lww_registers k with
            | none =>
                rw [ha, hb] at h
                cases h
            | some ro =>
                rw [ha, hb] at h
                injection h with h2
                subst h2
                exact iho k ro hb
        | some rs =>
            cases hb : other.lww_registers k with
            | none =>
                rw [ha, hb] at h
                injection h with h2
                subst h2
                exact ihs k rs ha
            | some ro =>
                rw [ha, hb] at h
                injection h with h2
                subst h2
                rcases lww_merge_cases rs ro with hm | hm <;> rw [hm]
                · exact ihs k rs ha
                · exact iho k ro hb

/-- C7.  For every reachable state, serializing with `to_dict` and reading
back with `from_dict` reproduces the node id, the vector clock, every
register (node id, value and timestamp) and the deleted-key set.  (The
constructor's `timestamp or time.time()` defaulting is harmless because
reachable registers carry positive timestamps.) -/
theorem to_dict_from_dict_roundtrip (s : SyncState α) (now : Nat)
    (hs : Reachable s) :
    (SyncState.from_dict s.to_dict now).node_id = s.node_id ∧
    (∀ m, (SyncState.from_dict s.to_dict now).vector_clock m =
      s.vector_clock m) ∧
    (∀ k, (SyncState.from_dict s.to_dict now).lww_registers k =
      s.lww_registers k) ∧
    (SyncState.from_dict s.to_dict now).deleted_keys = s.deleted_keys := by
  refine ⟨rfl, fun m => rfl, fun k => ?_, ?_⟩
  · show ((s.lww_registers k).map LWWRegister.to_dict).map
        (fun rd => LWWRegister.from_dict rd now) = s.lww_registers k
    cases hk : s.lww_registers k with
    | none => rfl
    | some r =>
        have hpos := reachable_timestamp_pos hs k r hk
        show some (LWWRegister.from_dict (LWWRegister.to_dict r) now) = some r
        unfold LWWRegister.from_dict LWWRegister.to_dict LWWRegister.init
        dsimp only
        rw [if_neg (by omega)]
  · show GSet.from_dict (GSet.to_dict s.deleted_keys) = s.deleted_keys
    unfold GSet.from_dict GSet.to_dict
    cases s.deleted_keys with
    | mk els =>
        congr 1
        ext a
        simp [Finset.mem_sort]

/-- Witness for C7 at a concrete reachable state. -/
theorem to_dict_from_dict_roundtrip_witness :
    (SyncState.from_dict ((SyncState.init "n" (α := Nat)).set_value "k" 1
        5).to_dict 9).lww_registers "k" =
      ((SyncState.init "n" (α := Nat)).set_value "k" 1 5).lww_registers "k" ∧
    (SyncState.from_dict ((SyncState.init "n" (α := Nat)).set_value "k" 1
        5).to_dict 9).deleted_keys =
      ((SyncState.init "n" (α := Nat)).set_value "k" 1 5).deleted_keys :=
  ⟨(to_dict_from_dict_roundtrip ((SyncState.init "n" (α := Nat)).set_value "k" 1 5)
      9 (Reachable.set (SyncState.init "n") "k" 1 5 (by decide)
        (Reachable.init "n"))).2.2.1 "k",
    (to_dict_from_dict_roundtrip ((SyncState.init "n" (α := Nat)).set_value "k" 1 5)
      9 (Reachable.set (SyncState.init "n") "k" 1 5 (by decide)
        (Reachable.init "n"))).2.2.2⟩
